import Mathlib

/-!
# hostsdns: hosts-file parser, resolution table and query responder

A shallow embedding of `pkg/config/config.go`, `pkg/record/record.go`,
`pkg/server/server.go` and the reload loop of `cmd/hostdns/root.go`
(`main.go` carries a second copy of the same functions).

Conventions of the embedding

* A Go `string` / `[]byte` holding text is a `List Char` (`GoString`); the
  content is taken to be valid UTF-8, so a rune is a `Char`.
* A Go `map[string]DNSRecord` is a function `GoString → Option DNSRecord`;
  a `nil` map and an empty map both answer every lookup with `none`.
* `error` results are explicit (`Except`, or a pair with `Option GoError`);
  run-time panics are `Except Panic`.
* The operating system is a `FileSystem` value: what `os.Open` and `os.Stat`
  return for a path. Log output is not modelled.
* Library functions the program calls (`strings.TrimSpace`, `strings.Fields`,
  `bufio.Scanner` with `bufio.ScanLines`, `net.ParseIP`, `IP.To4`, `IP.To16`,
  `Time.After`) are embedded from the Go standard library.
-/

namespace HostsDNS

/-! ## Strings -/

/-- Text of a Go string, one `Char` per rune. -/
abbrev GoString := List Char

/-- The Go function `unicode.IsSpace`. -/
def IsSpace (r : Char) : Bool :=
  let n := r.toNat
  if n ≤ 0xFF then
    n = 0x09 || n = 0x0A || n = 0x0B || n = 0x0C || n = 0x0D || n = 0x20 || n = 0x85 || n = 0xA0
  else
    n = 0x1680 || (0x2000 ≤ n && n ≤ 0x200A) || n = 0x2028 || n = 0x2029 || n = 0x202F
      || n = 0x205F || n = 0x3000

/-- The Go function `strings.TrimSpace`: leading and trailing white space removed. -/
def TrimSpace (s : GoString) : GoString :=
  (s.dropWhile IsSpace).rdropWhile IsSpace

/-- The Go function `strings.HasPrefix`. -/
def HasPrefix (s pre : GoString) : Bool :=
  pre.isPrefixOf s

/-- The loop of `strings.Fields`: `cur` is the field being read. -/
def FieldsFrom (cur : GoString) : GoString → List GoString
  | [] => if cur = [] then [] else [cur]
  | c :: cs =>
    if IsSpace c then
      if cur = [] then FieldsFrom [] cs else cur :: FieldsFrom [] cs
    else FieldsFrom (cur ++ [c]) cs

/-- The Go function `strings.Fields`: the maximal runs of non-space runes. -/
def Fields (s : GoString) : List GoString :=
  FieldsFrom [] s

/-! ## Errors -/

/-- The `error` values the program can meet. -/
inductive GoError where
  | PathError      -- os.Open / os.Stat failed
  | ReadError      -- the file stream failed while scanning
  | ErrTooLong     -- bufio.Scanner: token too long
  | CodecError     -- serialisation of a reply failed
  | WriteError     -- the socket write failed
  deriving DecidableEq, Repr

/-- The run-time panics the program can raise. -/
inductive Panic where
  | nilDereference
  | indexOutOfRange
  | errorValue (e : GoError)    -- panic(err) in response
  deriving DecidableEq, Repr

/-! ## bufio.Scanner with bufio.ScanLines -/

/-- Length in bytes of the UTF-8 encoding. -/
def byteLen (s : GoString) : Nat :=
  (s.map Char.utf8Size).sum

/-- The constant `bufio.MaxScanTokenSize`. -/
def MaxScanTokenSize : Nat := 64 * 1024

/-- The helper `dropCR` of `bufio.ScanLines`: one trailing carriage return removed. -/
def dropCR (data : GoString) : GoString :=
  if data.getLast? = some '\r' then data.dropLast else data

/-- The raw lines of a content: the text before each newline, and the
unterminated rest when it is not empty. `cur` is the line being read. -/
def rawLinesFrom (cur : GoString) : GoString → List GoString
  | [] => if cur = [] then [] else [cur]
  | c :: cs => if c = '\n' then cur :: rawLinesFrom [] cs else rawLinesFrom (cur ++ [c]) cs

/-- The tokens `scanner.Scan()` / `scanner.Text()` deliver, given the raw
lines still ahead, and the final `scanner.Err()`: a raw line that does not fit
the buffer (`MaxScanTokenSize` bytes) stops the scan with `ErrTooLong`; at the
end of the data the error is the stream's read error, if any. -/
def scanTokens (readErr : Option GoError) : List GoString → List GoString × Option GoError
  | [] => ([], readErr)
  | l :: ls =>
    if MaxScanTokenSize ≤ byteLen l then ([], some GoError.ErrTooLong)
    else ((dropCR l) :: (scanTokens readErr ls).1, (scanTokens readErr ls).2)

/-- An opened file as the scanner sees it: the bytes it delivers and the
non-EOF error, if any, that ends the stream. -/
structure File where
  content : GoString
  readErr : Option GoError

/-- The scanner of `bufio.NewScanner(file)` run to the end: every token of
`scanner.Text()` in order, and the value of `scanner.Err()`. -/
def Scanner (file : File) : List GoString × Option GoError :=
  scanTokens file.readErr (rawLinesFrom [] file.content)

/-! ## net.ParseIP -/

/-- A Go `net.IP`: a byte slice, `nil` being the empty list. -/
abbrev IP := List Nat

/-- The zone field `z` of a `netip.Addr`. -/
inductive AddrKind where
  | z4
  | z6noz
  | zone (name : GoString)
  deriving DecidableEq, Repr

/-- A `netip.Addr`: its 16 bytes (`As16`) and its kind. -/
structure Addr where
  as16 : List Nat
  z : AddrKind
  deriving DecidableEq, Repr

/-- The Go function `netip.AddrFrom4`. -/
def AddrFrom4 (f : List Nat) : Addr :=
  ⟨[0, 0, 0, 0, 0, 0, 0, 0, 0, 0, 0xff, 0xff] ++ f, AddrKind.z4⟩

/-- The loop of `netip.parseIPv4Fields` over the text `s`: `val` and `digLen`
as in the source, `fields` the octets stored so far (`pos` is their number),
`atStart` for `i == 0` and `prevDot` for `s[i-1] == '.'`. -/
def parseIPv4FieldsLoop (val digLen : Nat) (fields : List Nat) (atStart prevDot : Bool) :
    GoString → Option (List Nat)
  | [] => if fields.length < 3 then none else some (fields ++ [val])
  | c :: rest =>
    if '0' ≤ c ∧ c ≤ '9' then
      if digLen = 1 ∧ val = 0 then none
      else if val * 10 + (c.toNat - '0'.toNat) > 255 then none
      else parseIPv4FieldsLoop (val * 10 + (c.toNat - '0'.toNat)) (digLen + 1) fields false false rest
    else if c = '.' then
      if atStart ∨ rest = [] ∨ prevDot then none
      else if fields.length = 3 then none
      else parseIPv4FieldsLoop 0 0 (fields ++ [val]) false true rest
    else none

/-- The Go function `netip.parseIPv4Fields` on the text `s`: the four octets. -/
def parseIPv4Fields (s : GoString) : Option (List Nat) :=
  parseIPv4FieldsLoop 0 0 [] true false s

/-- The Go function `netip.parseIPv4`. -/
def parseIPv4 (s : GoString) : Option Addr :=
  (parseIPv4Fields s).map AddrFrom4

/-- Value of a hexadecimal digit. -/
def hexVal (c : Char) : Option Nat :=
  if '0' ≤ c ∧ c ≤ '9' then some (c.toNat - '0'.toNat)
  else if 'a' ≤ c ∧ c ≤ 'f' then some (c.toNat - 'a'.toNat + 10)
  else if 'A' ≤ c ∧ c ≤ 'F' then some (c.toNat - 'A'.toNat + 10)
  else none

/-- The inner loop of `netip.parseIPv6` reading one group of hex digits:
the number of digits `off`, the value `acc` (a uint32) and the rest of the
text, or `none` when the group has more than 4 digits or overflows. -/
def parseHexGroup (off acc : Nat) : GoString → Option (Nat × Nat × GoString)
  | [] => some (off, acc, [])
  | c :: cs =>
    match hexVal c with
    | none => some (off, acc, c :: cs)
    | some d =>
      if off > 3 then none
      else if (acc * 16 + d) % 2 ^ 32 > 0xFFFF then none
      else parseHexGroup (off + 1) ((acc * 16 + d) % 2 ^ 32) cs

/-- The outer loop `for i < 16` of `netip.parseIPv6`. `slots` is the number of
two-byte groups still free, so `i = 16 - 2 * slots` and `ip` holds the `i`
bytes written so far. The result is `(ip, ellipsis, s)` at the loop's exit,
or `none` where the source returns an error. -/
def parseIPv6Loop : (slots : Nat) → (ip : List Nat) → (ellipsis : Option Nat) → GoString →
    Option (List Nat × Option Nat × GoString)
  | 0, ip, ellipsis, s => some (ip, ellipsis, s)
  | slots + 1, ip, ellipsis, s =>
    match parseHexGroup 0 0 s with
    | none => none
    | some (off, acc, rest) =>
      if off = 0 then none
      else if rest.head? = some '.' then
        if ellipsis = none ∧ ip.length ≠ 12 then none
        else if ip.length + 4 > 16 then none
        else
          match parseIPv4Fields s with
          | none => none
          | some f => some (ip ++ f, ellipsis, [])
      else
        let ip2 := ip ++ [acc / 256 % 256, acc % 256]
        match rest with
        | [] => some (ip2, ellipsis, [])
        | c :: s1 =>
          if c ≠ ':' then none
          else
            match s1 with
            | [] => none
            | c1 :: s2 =>
              if c1 = ':' then
                if ellipsis ≠ none then none
                else if s2 = [] then some (ip2, some ip2.length, [])
                else parseIPv6Loop slots ip2 (some ip2.length) s2
              else parseIPv6Loop slots ip2 ellipsis s1

/-- The end of `netip.parseIPv6`, after the loop: the whole text must be
used, and a short address is filled with zeros at the ellipsis. -/
def parseIPv6Finish (z : AddrKind) : Option (List Nat × Option Nat × GoString) → Option Addr
  | none => none
  | some (ip, ellipsis, rest) =>
    if rest ≠ [] then none
    else if ip.length < 16 then
      match ellipsis with
      | none => none
      | some e => some ⟨ip.take e ++ List.replicate (16 - ip.length) 0 ++ ip.drop e, z⟩
    else if ellipsis ≠ none then none
    else some ⟨ip, z⟩

/-- The part of `netip.parseIPv6` after the zone is split off: the leading
ellipsis, the loop and the end. `z` is the kind the address gets. -/
def parseIPv6Text (z : AddrKind) (s : GoString) : Option Addr :=
  if s.take 2 = [':', ':'] then
    if s.drop 2 = [] then some ⟨List.replicate 16 0, z⟩
    else parseIPv6Finish z (parseIPv6Loop 8 [] (some 0) (s.drop 2))
  else parseIPv6Finish z (parseIPv6Loop 8 [] none s)

/-- The Go function `netip.parseIPv6`: the text from the first `%` on is the
zone, which must not be empty. -/
def parseIPv6 (input : GoString) : Option Addr :=
  if input.contains '%' then
    if (input.dropWhile (fun c => c ≠ '%')).drop 1 = [] then none
    else parseIPv6Text (AddrKind.zone ((input.dropWhile (fun c => c ≠ '%')).drop 1))
      (input.takeWhile (fun c => c ≠ '%'))
  else parseIPv6Text AddrKind.z6noz input

/-- The Go function `netip.ParseAddr`: the first of `.`, `:` and `%` in the
text decides how it is read. -/
def ParseAddrFrom (s : GoString) : GoString → Option Addr
  | [] => none
  | c :: cs =>
    if c = '.' then parseIPv4 s
    else if c = ':' then parseIPv6 s
    else if c = '%' then none
    else ParseAddrFrom s cs

/-- The Go function `netip.ParseAddr`. -/
def ParseAddr (s : GoString) : Option Addr :=
  ParseAddrFrom s s

/-- The Go function `net.ParseIP`: the 16-byte form of the address, `nil`
when the text is not an address or carries a zone. -/
def ParseIP (s : GoString) : IP :=
  match ParseAddr s with
  | none => []
  | some addr => if addr.z = AddrKind.z4 ∨ addr.z = AddrKind.z6noz then addr.as16 else []

/-- The Go method `IP.To4`. -/
def To4 (ip : IP) : IP :=
  if ip.length = 4 then ip
  else if ip.length = 16 ∧ (ip.take 10).all (fun b => b = 0) ∧ ip.get? 10 = some 0xff
      ∧ ip.get? 11 = some 0xff then ip.drop 12
  else []

/-- The Go method `IP.To16`. -/
def To16 (ip : IP) : IP :=
  if ip.length = 4 then [0, 0, 0, 0, 0, 0, 0, 0, 0, 0, 0xff, 0xff] ++ ip
  else if ip.length = 16 then ip
  else []

/-! ## pkg/record -/

/-- A `layers.DNSType` (uint16). -/
abbrev DNSType := Nat

/-- The constant `layers.DNSTypeA`. -/
def DNSTypeA : DNSType := 1

/-- The constant `layers.DNSTypeAAAA`. -/
def DNSTypeAAAA : DNSType := 28

/-- The struct `record.DNSRecord`. -/
structure DNSRecord where
  IP : GoString
  IPType : DNSType
  deriving DecidableEq, Repr

/-- The constructor `record.NewDNSRecord`. -/
def NewDNSRecord (ip : GoString) (dnsType : DNSType) : DNSRecord :=
  { IP := ip, IPType := dnsType }

/-! ## The table `map[string]DNSRecord` -/

/-- A `map[string]dnsrecord.DNSRecord`. -/
abbrev Hosts := GoString → Option DNSRecord

/-- The map `make(map[string]dnsrecord.DNSRecord)`; a `nil` map reads the same. -/
def Hosts.empty : Hosts := fun _ => none

/-- The assignment `hosts[key] = rec`. -/
def Hosts.set (hosts : Hosts) (key : GoString) (rec : DNSRecord) : Hosts :=
  fun k => if k = key then some rec else hosts k

/-! ## pkg/config: ReadHostsFile -/

/-- The body of the loop `for i := 1; i < len(fields); i++` of `ReadHostsFile`
for one `hostname`: the `switch` on `net.ParseIP(ip)`. -/
def insertAlias (hosts : Hosts) (ip hostname : GoString) : Hosts :=
  let ipAddr := ParseIP ip
  if To4 ipAddr ≠ [] then
    (hosts.set (hostname ++ ['.']) (NewDNSRecord ip DNSTypeA)).set hostname
      (NewDNSRecord ip DNSTypeA)
  else if To16 ipAddr ≠ [] then
    (hosts.set (hostname ++ ['.']) (NewDNSRecord ip DNSTypeAAAA)).set hostname
      (NewDNSRecord ip DNSTypeAAAA)
  else hosts

/-- The body of the loop `for scanner.Scan()` of `ReadHostsFile` for one
`scanner.Text()`. -/
def processLine (hosts : Hosts) (text : GoString) : Hosts :=
  let line := TrimSpace text
  if line = [] ∨ HasPrefix line ['#'] then hosts
  else
    let fields := Fields line
    if fields.length < 2 then hosts
    else
      let ip := fields.getD 0 []
      (fields.drop 1).foldl (fun h hostname => insertAlias h ip hostname) hosts

/-! ## The operating system -/

/-- A `time.Time` without monotonic reading: seconds and nanoseconds within
the second. -/
structure Time where
  sec : Int
  nsec : Nat
  deriving DecidableEq, Repr

/-- The Go method `Time.After`. -/
def Time.After (t u : Time) : Bool :=
  decide (t.sec > u.sec) || (decide (t.sec = u.sec) && decide (t.nsec > u.nsec))

/-- The instant of a time in nanoseconds. -/
def Time.unixNano (t : Time) : Int :=
  t.sec * 1000000000 + t.nsec

/-- The zero `time.Time`. -/
def Time.zero : Time := ⟨0, 0⟩

/-- An `os.FileInfo`, of which the program reads `ModTime()`. -/
structure FileInfo where
  ModTime : Time
  deriving DecidableEq, Repr

/-- What the operating system answers at one moment: `os.Open(path)` and
`os.Stat(path)`. -/
structure FileSystem where
  Open : String → Except GoError File
  Stat : String → Except GoError FileInfo

/-- The function `config.ReadHostsFile`. -/
def ReadHostsFile (fs : FileSystem) (filename : String) : Except GoError Hosts :=
  match fs.Open filename with
  | .error err => .error err
  | .ok file =>
    let hosts := (Scanner file).1.foldl processLine Hosts.empty
    match (Scanner file).2 with
    | some err => .error err
    | none => .ok hosts

/-! ## pkg/server -/

/-- The struct `server.DNSServer` (its lock is in the access traces below). -/
structure DNSServer where
  Hostfile : String
  hosts : Hosts
  lastModifiedTime : Time
  Port : Nat

/-- The constructor `server.NewDnsServer`. -/
def NewDnsServer (hostfile : String) (port : Nat) : DNSServer :=
  { Hostfile := hostfile, hosts := Hosts.empty, lastModifiedTime := Time.zero, Port := port }

/-- The method `DNSServer.LoadHostsFile`: the server afterwards and the error
returned. -/
def LoadHostsFile (fs : FileSystem) (dnsserver : DNSServer) : DNSServer × Option GoError :=
  match ReadHostsFile fs dnsserver.Hostfile with
  | .error err => (dnsserver, some err)
  | .ok hosts =>
    match fs.Stat dnsserver.Hostfile with
    | .error err => (dnsserver, some err)
    | .ok fi => ({ dnsserver with hosts := hosts, lastModifiedTime := fi.ModTime }, none)

/-- The method `DNSServer.InitServer`. -/
def InitServer (fs : FileSystem) (dnsserver : DNSServer) : DNSServer × Option GoError :=
  LoadHostsFile fs dnsserver

/-- The method `DNSServer.IsHostsFileModified`. -/
def IsHostsFileModified (fs : FileSystem) (dnsserver : DNSServer) : Bool × Option GoError :=
  match fs.Stat dnsserver.Hostfile with
  | .error err => (false, some err)
  | .ok fi => (fi.ModTime.After dnsserver.lastModifiedTime, none)

/-- One tick of the reload goroutine of `startServer`: `fsCheck` is the file
system at the call of `IsHostsFileModified`, `fsLoad` at `LoadHostsFile`. -/
def reloadTick (fsCheck fsLoad : FileSystem) (ds : DNSServer) : DNSServer :=
  match IsHostsFileModified fsCheck ds with
  | (_, some _) => ds
  | (modified, none) =>
    if modified then (LoadHostsFile fsLoad ds).1 else ds

/-! ### DNS messages (gopacket `layers.DNS`) -/

/-- The constant `layers.DNSClassIN`. -/
def DNSClassIN : Nat := 1

/-- The constant `layers.DNSResponseCodeNoErr`. -/
def DNSResponseCodeNoErr : Nat := 0

/-- The constant `layers.DNSResponseCodeNXDomain`. -/
def DNSResponseCodeNXDomain : Nat := 3

/-- The constant `layers.DNSOpCodeNotify`. -/
def DNSOpCodeNotify : Nat := 4

/-- The struct `layers.DNSQuestion` (`Typ` is its field `Type`). -/
structure DNSQuestion where
  Name : GoString
  Typ : DNSType
  Class : Nat
  deriving DecidableEq, Repr

/-- The struct `layers.DNSResourceRecord`: the header fields (`Typ` is its
field `Type`) and the address; `Data` stands for the record data of the other
kinds. -/
structure DNSResourceRecord where
  Name : GoString
  Typ : DNSType
  Class : Nat
  TTL : Nat
  IP : IP
  Data : List Nat
  deriving DecidableEq, Repr

/-- The struct `layers.DNS`. -/
structure DNS where
  ID : Nat
  QR : Bool
  OpCode : Nat
  AA : Bool
  TC : Bool
  RD : Bool
  RA : Bool
  Z : Nat
  ResponseCode : Nat
  QDCount : Nat
  ANCount : Nat
  NSCount : Nat
  ARCount : Nat
  Questions : List DNSQuestion
  Answers : List DNSResourceRecord
  Authorities : List DNSResourceRecord
  Additionals : List DNSResourceRecord
  deriving DecidableEq, Repr

/-- The literal `errorAnswer` of `handleDNSQuery`: the fields not given are zero. -/
def errorAnswer : DNSResourceRecord :=
  { Name := [], Typ := DNSTypeA, Class := DNSClassIN, TTL := 0, IP := [], Data := [] }

/-- The literal `dnsAnswer` of `handleDNSQuery`. -/
def dnsAnswer (record : DNSRecord) (name : GoString) : DNSResourceRecord :=
  { Name := name, Typ := record.IPType, Class := DNSClassIN, TTL := 0,
    IP := ParseIP record.IP, Data := [] }

/-- The message `replyMess` that `handleDNSQuery` hands to `response`, or the
panic raised before: `request` is `none` for a nil pointer. -/
def replyMess (dnsserver : DNSServer) (request : Option DNS) : Except Panic DNS :=
  match request with
  | none => .error Panic.nilDereference
  | some request =>
    match request.Questions with
    | [] => .error Panic.indexOutOfRange
    | q :: _ =>
      match dnsserver.hosts q.Name with
      | none =>
        .ok { request with
              ResponseCode := DNSResponseCodeNXDomain
              Answers := [errorAnswer] }
      | some record =>
        .ok { request with
              QR := true
              ANCount := 1
              OpCode := DNSOpCodeNotify
              AA := true
              Answers := request.Answers ++ [dnsAnswer record q.Name]
              ResponseCode := DNSResponseCodeNoErr }

/-- The socket and the codec of one exchange: `SerializeTo` of the reply and
`WriteTo` of its bytes. -/
structure Conn where
  SerializeTo : DNS → Except GoError (List Nat)
  WriteTo : List Nat → Except GoError Unit

/-- The method `DNSServer.response`: the bytes written to the client. -/
def response (u : Conn) (reply : DNS) : Except Panic (List Nat) :=
  match u.SerializeTo reply with
  | .error err => .error (Panic.errorValue err)
  | .ok bytes =>
    match u.WriteTo bytes with
    | .error err => .error (Panic.errorValue err)
    | .ok _ => .ok bytes

/-- The method `DNSServer.handleDNSQuery`: the bytes sent, or the panic. -/
def handleDNSQuery (dnsserver : DNSServer) (u : Conn) (request : Option DNS) :
    Except Panic (List Nat) :=
  match replyMess dnsserver request with
  | .error p => .error p
  | .ok reply => response u reply

/-- One pass of the loop `for` of `DNSServer.Start`: `tcp` is the DNS layer
the codec decoded from the datagram, `none` when there is none. The result is
the bytes sent back; a panic ends the process. -/
def StartIteration (dnsserver : DNSServer) (u : Conn) (tcp : Option DNS) :
    Except Panic (List Nat) :=
  handleDNSQuery dnsserver u tcp

/-! ### Lock operations and accesses to the shared fields -/

/-- An operation on `dnsserver.lock` or an access to `dnsserver.hosts` /
`dnsserver.lastModifiedTime`. -/
inductive Access where
  | Lock
  | Unlock
  | RLock
  | RUnlock
  | readHosts
  | writeHosts
  | readTime
  | writeTime
  deriving DecidableEq, Repr

/-- The lock operations and shared accesses of `LoadHostsFile`, in order. -/
def LoadHostsFile.accesses (fs : FileSystem) (dnsserver : DNSServer) : List Access :=
  [Access.Lock] ++
  (match (LoadHostsFile fs dnsserver).2 with
   | some _ => []
   | none => [Access.writeHosts, Access.writeTime]) ++
  [Access.Unlock]

/-- The lock operations and shared accesses of `IsHostsFileModified`. -/
def IsHostsFileModified.accesses (fs : FileSystem) (dnsserver : DNSServer) : List Access :=
  match fs.Stat dnsserver.Hostfile with
  | .error _ => []
  | .ok _ => [Access.readTime]

/-- The lock operations and shared accesses of `handleDNSQuery`. -/
def handleDNSQuery.accesses (request : Option DNS) : List Access :=
  match request with
  | none => []
  | some request =>
    match request.Questions with
    | [] => []
    | _ :: _ => [Access.readHosts]

/-- Whether every access of a trace is made under the lock it needs: reads
with the read lock (or the write lock) held, writes with the write lock held.
`r` and `w` say whether the read and the write lock are held. -/
def guardedFrom (r w : Bool) : List Access → Bool
  | [] => true
  | Access.Lock :: rest => guardedFrom r true rest
  | Access.Unlock :: rest => guardedFrom r false rest
  | Access.RLock :: rest => guardedFrom true w rest
  | Access.RUnlock :: rest => guardedFrom false w rest
  | Access.readHosts :: rest => (r || w) && guardedFrom r w rest
  | Access.readTime :: rest => (r || w) && guardedFrom r w rest
  | Access.writeHosts :: rest => w && guardedFrom r w rest
  | Access.writeTime :: rest => w && guardedFrom r w rest

/-- Whether a trace started with no lock held keeps the lock discipline. -/
def guarded (t : List Access) : Bool :=
  guardedFrom false false t

/-! ## Sample values -/

/-- A file system whose hosts file opens with content `content`, reads to
the end without error and has modification time `mtime`. -/
def fileSystemOf (content : GoString) (mtime : Time) : FileSystem :=
  { Open := fun _ => .ok { content := content, readErr := none }
    Stat := fun _ => .ok { ModTime := mtime } }

/-- A file system whose hosts file cannot be opened or stat-ed. -/
def fileSystemMissing : FileSystem :=
  { Open := fun _ => .error GoError.PathError
    Stat := fun _ => .error GoError.PathError }

/-- A standard query (QR = false) with the single question `name`, type A. -/
def queryFor (name : GoString) : DNS :=
  { ID := 7, QR := false, OpCode := 0, AA := false, TC := false, RD := true, RA := false,
    Z := 0, ResponseCode := 0, QDCount := 1, ANCount := 0, NSCount := 0, ARCount := 0,
    Questions := [{ Name := name, Typ := DNSTypeA, Class := DNSClassIN }],
    Answers := [], Authorities := [], Additionals := [] }

/-- A resource record as a request may carry in its answer section. -/
def strayAnswer : DNSResourceRecord :=
  { Name := "evil.test.".toList, Typ := DNSTypeA, Class := DNSClassIN, TTL := 3600,
    IP := [6, 6, 6, 6], Data := [] }

/-- A server whose table holds `example.com. → 10.0.0.1 (A)`. -/
def exampleServer : DNSServer :=
  { Hostfile := "/etc/hostdns"
    hosts := Hosts.empty.set "example.com.".toList (NewDNSRecord "10.0.0.1".toList DNSTypeA)
    lastModifiedTime := ⟨100, 0⟩
    Port := 53 }

/-! ## Lines of a hosts file -/

/-- The lines of a content, as `bufio.ScanLines` cuts them, before `dropCR`. -/
def rawLines (content : GoString) : List GoString :=
  rawLinesFrom [] content

/-- The content made of the given lines, each ended by a newline. -/
def joinLines : List GoString → GoString
  | [] => []
  | l :: ls => l ++ '\n' :: joinLines ls

/-- A file the scanner reads to the end: the stream has no read error and no
line reaches `MaxScanTokenSize` bytes. -/
def ScanOK (file : File) : Prop :=
  file.readErr = none ∧ ∀ l ∈ rawLines file.content, byteLen l < MaxScanTokenSize

instance (file : File) : Decidable (ScanOK file) :=
  inferInstanceAs (Decidable (_ ∧ _))

/-- The address field of a line: the first field of the trimmed text. -/
def addressOf (text : GoString) : GoString :=
  (Fields (TrimSpace text)).getD 0 []

/-- The aliases of a line: the fields after the first. -/
def aliasesOf (text : GoString) : List GoString :=
  (Fields (TrimSpace text)).drop 1

/-- A skipped line in the words of the specification: blank after trimming,
starting with `#` after trimming, with fewer than 2 fields, or with a first
field that is not a valid IPv4 or IPv6 literal (`net.ParseIP` gives nil). -/
def skippedLine (text : GoString) : Bool :=
  decide (TrimSpace text = []) || HasPrefix (TrimSpace text) ['#']
    || decide ((Fields (TrimSpace text)).length < 2) || decide (ParseIP (addressOf text) = [])

/-- The same content with every skipped line removed. -/
def removeSkipped (content : GoString) : GoString :=
  joinLines ((rawLines content).filter (fun l => !skippedLine l))

/-- The name `h` appears as an alias (field 2 or later) on the line `text`,
whose first field is a valid IPv4/IPv6 literal. -/
def listsAlias (text h : GoString) : Prop :=
  ParseIP (addressOf text) ≠ [] ∧ h ∈ aliasesOf text

instance (text h : GoString) : Decidable (listsAlias text h) :=
  inferInstanceAs (Decidable (_ ∧ _))

/-- The record `ReadHostsFile` stores for the address text `ip`: kind A when
`net.ParseIP(ip).To4()` is not nil, kind AAAA otherwise. -/
def recordOf (ip : GoString) : DNSRecord :=
  if To4 (ParseIP ip) ≠ [] then NewDNSRecord ip DNSTypeA else NewDNSRecord ip DNSTypeAAAA

/-- Some alias of `names` writes the key `k`: `k` is the alias or the alias
followed by a dot. -/
def writesKey (names : List GoString) (k : GoString) : Prop :=
  ∃ h ∈ names, k = h ∨ k = h ++ ['.']

instance (names : List GoString) (k : GoString) : Decidable (writesKey names k) :=
  inferInstanceAs (Decidable (∃ h ∈ names, _))

/-- The Go method `netip.Addr.Is4`: a dotted IPv4 literal was read. -/
def Addr.Is4 (addr : Addr) : Bool :=
  decide (addr.z = AddrKind.z4)

/-- The Go method `netip.Addr.Is4In6`: an IPv6 address of the form
`::ffff:a.b.c.d`. -/
def Addr.Is4In6 (addr : Addr) : Bool :=
  decide (addr.z ≠ AddrKind.z4) && (addr.as16.take 12 == [0, 0, 0, 0, 0, 0, 0, 0, 0, 0, 0xff, 0xff])

/-- The text is a 4-octet dotted IPv4 literal. -/
def isIPv4Literal (a : GoString) : Bool :=
  match ParseAddr a with
  | some addr => addr.Is4
  | none => false

/-- The text is a valid IPv6 literal (without zone). -/
def isIPv6Literal (a : GoString) : Bool :=
  match ParseAddr a with
  | some addr => decide (addr.z = AddrKind.z6noz)
  | none => false

/-- The text is an IPv6 literal whose address is IPv4-mapped (`::ffff:a.b.c.d`,
in dotted or hexadecimal writing). -/
def isIPv4MappedLiteral (a : GoString) : Bool :=
  match ParseAddr a with
  | some addr => decide (addr.z = AddrKind.z6noz) && addr.Is4In6
  | none => false

/-! ## Query responder: theorems -/

/-- C4 (failing input). A decoded request for `example.com.` that carries one
record in its own answer section is answered, on a hit, with a reply whose
answer section holds two records (the request's record, then the new one)
while `ANCount` is 1: `handleDNSQuery` appends to `request.Answers`. -/
theorem replyMess_hit_appends_to_request_answers :
    ∃ reply, replyMess exampleServer
        (some { queryFor "example.com.".toList with Answers := [strayAnswer] }) = .ok reply
      ∧ reply.ANCount = 1
      ∧ reply.Answers = [strayAnswer,
          { Name := "example.com.".toList, Typ := DNSTypeA, Class := DNSClassIN, TTL := 0,
            IP := [0, 0, 0, 0, 0, 0, 0, 0, 0, 0, 255, 255, 10, 0, 0, 1], Data := [] }]
      ∧ reply.Answers.length = 2 := by
  refine ⟨_, rfl, ?_, ?_, ?_⟩ <;> decide

/-- On a hit the flags are set and the new record is the last of the answer
section; with a request that carries no answers it is the only one. -/
theorem replyMess_hit_flags (dnsserver : DNSServer) (request : DNS) (q : DNSQuestion)
    (rest : List DNSQuestion) (record : DNSRecord)
    (hq : request.Questions = q :: rest) (hrec : dnsserver.hosts q.Name = some record) :
    ∃ reply, replyMess dnsserver (some request) = .ok reply
      ∧ reply.QR = true ∧ reply.AA = true ∧ reply.ANCount = 1
      ∧ reply.ResponseCode = DNSResponseCodeNoErr
      ∧ reply.Answers = request.Answers ++
          [{ Name := q.Name, Typ := record.IPType, Class := DNSClassIN, TTL := 0,
             IP := ParseIP record.IP, Data := [] }] := by
  simp [replyMess, hq, hrec, dnsAnswer]

/-- C5. When the first question's name is not a key of the table,
`handleDNSQuery` hands to `response` a reply with response code NXDOMAIN whose
answer section is exactly one record with Type A, Class IN, TTL 0, no name
and no address, whatever answers the request carried. -/
theorem replyMess_miss_NXDomain (dnsserver : DNSServer) (u : Conn) (request : DNS)
    (q : DNSQuestion) (rest : List DNSQuestion)
    (hq : request.Questions = q :: rest) (hrec : dnsserver.hosts q.Name = none) :
    ∃ reply, replyMess dnsserver (some request) = .ok reply
      ∧ handleDNSQuery dnsserver u (some request) = response u reply
      ∧ reply.ResponseCode = DNSResponseCodeNXDomain
      ∧ reply.Answers =
          [{ Name := [], Typ := DNSTypeA, Class := DNSClassIN, TTL := 0, IP := [], Data := [] }] := by
  simp [handleDNSQuery, replyMess, hq, hrec, errorAnswer]

/-- Witness of C5: a query for `missing.test.`, carrying a stray answer,
against the sample table. -/
theorem replyMess_miss_NXDomain_witness :
    ∃ reply, replyMess exampleServer
        (some { queryFor "missing.test.".toList with Answers := [strayAnswer] }) = .ok reply
      ∧ handleDNSQuery exampleServer ⟨fun _ => .ok [], fun _ => .ok ()⟩
          (some { queryFor "missing.test.".toList with Answers := [strayAnswer] })
          = response ⟨fun _ => .ok [], fun _ => .ok ()⟩ reply
      ∧ reply.ResponseCode = DNSResponseCodeNXDomain
      ∧ reply.Answers =
          [{ Name := [], Typ := DNSTypeA, Class := DNSClassIN, TTL := 0, IP := [], Data := [] }] :=
  replyMess_miss_NXDomain exampleServer ⟨fun _ => .ok [], fun _ => .ok ()⟩
    { queryFor "missing.test.".toList with Answers := [strayAnswer] }
    { Name := "missing.test.".toList, Typ := DNSTypeA, Class := DNSClassIN } [] rfl (by decide)

/-- C6 (failing input). A standard query (QR = false) for a name that is not
in the table gets a reply whose QR is still false: the NXDOMAIN branch of
`handleDNSQuery` never sets `replyMess.QR`. -/
theorem replyMess_miss_leaves_QR_unset :
    ∃ reply, replyMess exampleServer (some (queryFor "missing.test.".toList)) = .ok reply
      ∧ reply.ResponseCode = DNSResponseCodeNXDomain ∧ reply.QR = false := by
  refine ⟨_, rfl, ?_, ?_⟩ <;> decide

/-- In the NXDOMAIN branch the reply's QR is the request's QR. -/
theorem replyMess_miss_QR_of_request (dnsserver : DNSServer) (request : DNS) (q : DNSQuestion)
    (rest : List DNSQuestion)
    (hq : request.Questions = q :: rest) (hrec : dnsserver.hosts q.Name = none) :
    ∃ reply, replyMess dnsserver (some request) = .ok reply ∧ reply.QR = request.QR := by
  simp [replyMess, hq, hrec]

/-- C7 (failing input). With a datagram the codec cannot decode, the request
handed to `handleDNSQuery` is nil and the pass of the receive loop panics on
`request.Questions`, whatever the server state and the socket; nothing is
sent and the loop does not go on. -/
theorem StartIteration_nil_request_panics (dnsserver : DNSServer) (u : Conn) :
    StartIteration dnsserver u none = .error Panic.nilDereference := by
  rfl

/-- A decoded message without questions panics at `request.Questions[0]`. -/
theorem StartIteration_no_question_panics (dnsserver : DNSServer) (u : Conn) (request : DNS)
    (hq : request.Questions = []) :
    StartIteration dnsserver u (some request) = .error Panic.indexOutOfRange := by
  simp [StartIteration, handleDNSQuery, replyMess, hq]

/-! ## Reload: theorems -/

/-- C8. `LoadHostsFile` returns an error exactly when the file cannot be
opened or scanned (`ReadHostsFile` fails) or the stat fails, and then the
server, so its table and its `lastModifiedTime`, is what it was before; when it
returns nil, `hosts` is the freshly parsed table and `lastModifiedTime` the
stat's modification time, both replaced. A reload tick whose
`IsHostsFileModified` or `LoadHostsFile` call fails leaves the server as it was. -/
theorem LoadHostsFile_error_keeps_state (fs fsCheck : FileSystem) (dnsserver : DNSServer) :
    ((LoadHostsFile fs dnsserver).2 ≠ none ↔
        ((∃ err, ReadHostsFile fs dnsserver.Hostfile = .error err)
          ∨ ∃ err, fs.Stat dnsserver.Hostfile = .error err))
    ∧ ((LoadHostsFile fs dnsserver).2 ≠ none →
        (LoadHostsFile fs dnsserver).1 = dnsserver
          ∧ (LoadHostsFile fs dnsserver).1.hosts = dnsserver.hosts
          ∧ (LoadHostsFile fs dnsserver).1.lastModifiedTime = dnsserver.lastModifiedTime)
    ∧ ((LoadHostsFile fs dnsserver).2 = none →
        ∃ hosts fi, ReadHostsFile fs dnsserver.Hostfile = .ok hosts
          ∧ fs.Stat dnsserver.Hostfile = .ok fi
          ∧ (LoadHostsFile fs dnsserver).1 =
              { dnsserver with hosts := hosts, lastModifiedTime := fi.ModTime })
    ∧ ((IsHostsFileModified fsCheck dnsserver).2 ≠ none →
        reloadTick fsCheck fs dnsserver = dnsserver)
    ∧ ((LoadHostsFile fs dnsserver).2 ≠ none →
        reloadTick fsCheck fs dnsserver = dnsserver) := by
  refine ⟨?_, ?_, ?_, ?_, ?_⟩
  · unfold LoadHostsFile
    cases hr : ReadHostsFile fs dnsserver.Hostfile with
    | error e => simp
    | ok hosts =>
      cases hs : fs.Stat dnsserver.Hostfile with
      | error e => simp
      | ok fi => simp
  · unfold LoadHostsFile
    cases hr : ReadHostsFile fs dnsserver.Hostfile with
    | error e => simp
    | ok hosts =>
      cases hs : fs.Stat dnsserver.Hostfile with
      | error e => simp
      | ok fi => simp
  · unfold LoadHostsFile
    cases hr : ReadHostsFile fs dnsserver.Hostfile with
    | error e => simp
    | ok hosts =>
      cases hs : fs.Stat dnsserver.Hostfile with
      | error e => simp
      | ok fi => simp
  · unfold reloadTick IsHostsFileModified
    cases hs : fsCheck.Stat dnsserver.Hostfile with
    | error e => simp
    | ok fi => simp
  · intro h
    have hkeep : (LoadHostsFile fs dnsserver).1 = dnsserver := by
      revert h
      unfold LoadHostsFile
      cases hr : ReadHostsFile fs dnsserver.Hostfile with
      | error e => simp
      | ok hosts =>
        cases hs : fs.Stat dnsserver.Hostfile with
        | error e => simp
        | ok fi => simp
    unfold reloadTick IsHostsFileModified
    cases hs : fsCheck.Stat dnsserver.Hostfile with
    | error e => simp
    | ok fi =>
      by_cases hm : fi.ModTime.After dnsserver.lastModifiedTime = true
      · simp [hm, hkeep]
      · simp [hm]

/-- Witness of C8: a failing load (missing file) keeps the sample server, and
a successful load of `10.0.0.2 new.test` replaces table and timestamp. -/
theorem LoadHostsFile_error_keeps_state_witness :
    (LoadHostsFile fileSystemMissing exampleServer).2 ≠ none
    ∧ (LoadHostsFile fileSystemMissing exampleServer).1 = exampleServer
    ∧ (LoadHostsFile (fileSystemOf "10.0.0.2 new.test".toList ⟨200, 5⟩) exampleServer).2 = none
    ∧ (LoadHostsFile (fileSystemOf "10.0.0.2 new.test".toList ⟨200, 5⟩) exampleServer).1.lastModifiedTime
        = ⟨200, 5⟩
    ∧ (LoadHostsFile (fileSystemOf "10.0.0.2 new.test".toList ⟨200, 5⟩) exampleServer).1.hosts
        "new.test.".toList = some ⟨"10.0.0.2".toList, DNSTypeA⟩
    ∧ (LoadHostsFile (fileSystemOf "10.0.0.2 new.test".toList ⟨200, 5⟩) exampleServer).1.hosts
        "example.com.".toList = none
    ∧ reloadTick (fileSystemOf [] ⟨200, 5⟩) fileSystemMissing exampleServer = exampleServer :=
  have hfail : (LoadHostsFile fileSystemMissing exampleServer).2 ≠ none := by decide
  ⟨hfail,
   ((LoadHostsFile_error_keeps_state fileSystemMissing (fileSystemOf [] ⟨200, 5⟩)
      exampleServer).2.1 hfail).1,
   by decide, by decide, by decide, by decide,
   (LoadHostsFile_error_keeps_state fileSystemMissing (fileSystemOf [] ⟨200, 5⟩)
      exampleServer).2.2.2.2 hfail⟩

/-- The method `Time.After` is the strict order of the instants, for times
whose nanoseconds are within the second. -/
theorem Time.After_iff (t u : Time) (ht : t.nsec < 1000000000) (hu : u.nsec < 1000000000) :
    t.After u = true ↔ u.unixNano < t.unixNano := by
  unfold Time.After Time.unixNano
  simp only [Bool.or_eq_true, Bool.and_eq_true, decide_eq_true_eq]
  constructor
  · rintro (h | ⟨h1, h2⟩) <;> omega
  · intro h
    by_cases h1 : t.sec > u.sec
    · exact Or.inl h1
    · right
      constructor <;> omega

/-- C9. Right after a successful `LoadHostsFile`, with the stat of the file
unchanged, `IsHostsFileModified` returns `(false, nil)`; and whenever the stat
succeeds it returns `(true, nil)` exactly when the file's modification time
is strictly later than `lastModifiedTime` (equal or earlier gives false). -/
theorem IsHostsFileModified_spec (fs fsLater : FileSystem) (dnsserver : DNSServer) :
    ((LoadHostsFile fs dnsserver).2 = none →
        fsLater.Stat dnsserver.Hostfile = fs.Stat dnsserver.Hostfile →
        IsHostsFileModified fsLater (LoadHostsFile fs dnsserver).1 = (false, none))
    ∧ (∀ fi, fs.Stat dnsserver.Hostfile = .ok fi →
        fi.ModTime.nsec < 1000000000 → dnsserver.lastModifiedTime.nsec < 1000000000 →
        (IsHostsFileModified fs dnsserver).2 = none
          ∧ ((IsHostsFileModified fs dnsserver).1 = true ↔
              dnsserver.lastModifiedTime.unixNano < fi.ModTime.unixNano)) := by
  constructor
  · intro hok hstat
    have hfile : (LoadHostsFile fs dnsserver).1.Hostfile = dnsserver.Hostfile := by
      unfold LoadHostsFile
      cases hr : ReadHostsFile fs dnsserver.Hostfile with
      | error e => simp
      | ok hosts =>
        cases hs : fs.Stat dnsserver.Hostfile with
        | error e => simp
        | ok fi => simp
    revert hok
    unfold IsHostsFileModified
    rw [hfile, hstat]
    unfold LoadHostsFile
    cases hr : ReadHostsFile fs dnsserver.Hostfile with
    | error e => simp
    | ok hosts =>
      cases hs : fs.Stat dnsserver.Hostfile with
      | error e => simp
      | ok fi => simp [Time.After]
  · intro fi hs ht hu
    unfold IsHostsFileModified
    rw [hs]
    exact ⟨rfl, Time.After_iff fi.ModTime dnsserver.lastModifiedTime ht hu⟩

/-- Witness of C9: the sample server loads a file stamped `(200, 5)`; the check
right after gives false, and against the sample server, stamped `(100, 0)`,
a file stamped `(100, 1)` gives true. -/
theorem IsHostsFileModified_spec_witness :
    IsHostsFileModified (fileSystemOf "10.0.0.2 new.test".toList ⟨200, 5⟩)
        (LoadHostsFile (fileSystemOf "10.0.0.2 new.test".toList ⟨200, 5⟩) exampleServer).1
      = (false, none)
    ∧ ((IsHostsFileModified (fileSystemOf [] ⟨100, 1⟩) exampleServer).1 = true ↔
        exampleServer.lastModifiedTime.unixNano < (Time.mk 100 1).unixNano)
    ∧ IsHostsFileModified (fileSystemOf [] ⟨100, 1⟩) exampleServer = (true, none)
    ∧ IsHostsFileModified (fileSystemOf [] ⟨100, 0⟩) exampleServer = (false, none)
    ∧ IsHostsFileModified (fileSystemOf [] ⟨99, 999999999⟩) exampleServer = (false, none) :=
  ⟨(IsHostsFileModified_spec (fileSystemOf "10.0.0.2 new.test".toList ⟨200, 5⟩)
      (fileSystemOf "10.0.0.2 new.test".toList ⟨200, 5⟩) exampleServer).1 (by decide) rfl,
   ((IsHostsFileModified_spec (fileSystemOf [] ⟨100, 1⟩) (fileSystemOf [] ⟨100, 1⟩)
      exampleServer).2 ⟨⟨100, 1⟩⟩ rfl (by decide) (by decide)).2,
   by decide, by decide, by decide⟩

/-! ## Lock discipline: theorems -/

/-- The replacement in `LoadHostsFile` is made with the write lock held. -/
theorem LoadHostsFile_accesses_guarded (fs : FileSystem) (dnsserver : DNSServer) :
    guarded (LoadHostsFile.accesses fs dnsserver) = true := by
  unfold LoadHostsFile.accesses
  cases (LoadHostsFile fs dnsserver).2 <;> rfl

/-- C10 (failing input). The lookup of `handleDNSQuery` for a query with a
question reads `dnsserver.hosts` with no lock held, and so does the comparison
of `IsHostsFileModified` with `lastModifiedTime`: neither calls `RLock`, so
their traces break the lock discipline, while `LoadHostsFile` keeps it. -/
theorem handleDNSQuery_reads_without_lock :
    handleDNSQuery.accesses (some (queryFor "example.com.".toList)) = [Access.readHosts]
    ∧ guarded (handleDNSQuery.accesses (some (queryFor "example.com.".toList))) = false
    ∧ guarded (IsHostsFileModified.accesses (fileSystemOf [] ⟨100, 1⟩) exampleServer) = false
    ∧ guarded (LoadHostsFile.accesses (fileSystemOf [] ⟨100, 1⟩) exampleServer) = true := by
  refine ⟨?_, ?_, ?_, ?_⟩ <;> decide

/-! ## Strings and lines: lemmas -/

theorem TrimSpace_concat_space (s : GoString) (c : Char) (hc : IsSpace c = true) :
    TrimSpace (s ++ [c]) = TrimSpace s := by
  induction s with
  | nil => simp [TrimSpace, List.dropWhile, hc]
  | cons x t ih =>
    by_cases hx : IsSpace x = true
    · have h1 : TrimSpace (x :: t ++ [c]) = TrimSpace (t ++ [c]) := by
        simp [TrimSpace, List.dropWhile, hx]
      have h2 : TrimSpace (x :: t) = TrimSpace t := by
        simp [TrimSpace, List.dropWhile, hx]
      rw [h1, h2, ih]
    · have h1 : (x :: t ++ [c]).dropWhile IsSpace = (x :: t) ++ [c] := by
        simp [List.dropWhile, hx]
      have h2 : (x :: t).dropWhile IsSpace = x :: t := by
        simp [List.dropWhile, hx]
      unfold TrimSpace
      rw [h1, h2, List.rdropWhile_concat_pos _ _ _ hc]

theorem TrimSpace_dropCR (l : GoString) : TrimSpace (dropCR l) = TrimSpace l := by
  unfold dropCR
  split
  · next h =>
    have hl : l.dropLast ++ ['\r'] = l := List.dropLast_append_getLast? '\r' (by simp [h])
    conv_rhs => rw [← hl]
    rw [TrimSpace_concat_space _ _ (by decide)]
  · rfl

theorem rawLinesFrom_append_newline (l rest cur : GoString) (hl : '\n' ∉ l) :
    rawLinesFrom cur (l ++ '\n' :: rest) = (cur ++ l) :: rawLinesFrom [] rest := by
  induction l generalizing cur with
  | nil => simp [rawLinesFrom]
  | cons x t ih =>
    have hx : x ≠ '\n' := fun h => hl (by simp [h])
    have ht : '\n' ∉ t := fun h => hl (by simp [h])
    simp [rawLinesFrom, hx, ih _ ht]

theorem rawLinesFrom_no_newline (s cur : GoString) (hcur : '\n' ∉ cur) :
    ∀ l ∈ rawLinesFrom cur s, '\n' ∉ l := by
  induction s generalizing cur with
  | nil =>
    intro l hl
    unfold rawLinesFrom at hl
    split at hl
    · simp at hl
    · simp at hl
      rw [hl]; exact hcur
  | cons x t ih =>
    intro l hl
    unfold rawLinesFrom at hl
    split at hl
    · rcases List.mem_cons.1 hl with h | h
      · rw [h]; exact hcur
      · exact ih [] (by simp) l h
    · next hx =>
      refine ih (cur ++ [x]) ?_ l hl
      simp only [List.mem_append, List.mem_singleton, not_or]
      exact ⟨hcur, fun h => hx h.symm⟩

theorem rawLines_joinLines (ls : List GoString) (h : ∀ l ∈ ls, '\n' ∉ l) :
    rawLines (joinLines ls) = ls := by
  induction ls with
  | nil => simp [rawLines, joinLines, rawLinesFrom]
  | cons l t ih =>
    have hl : '\n' ∉ l := h l (by simp)
    have ht : ∀ x ∈ t, '\n' ∉ x := fun x hx => h x (by simp [hx])
    unfold rawLines joinLines
    rw [rawLinesFrom_append_newline l _ [] hl]
    simp only [List.nil_append]
    have := ih ht
    unfold rawLines at this
    rw [this]

theorem scanTokens_ok (ls : List GoString) (h : ∀ l ∈ ls, byteLen l < MaxScanTokenSize) :
    scanTokens none ls = (ls.map dropCR, none) := by
  induction ls with
  | nil => rfl
  | cons l t ih =>
    have hl : ¬ MaxScanTokenSize ≤ byteLen l := Nat.not_le.2 (h l (by simp))
    have ht := ih (fun x hx => h x (by simp [hx]))
    simp [scanTokens, hl, ht]

theorem Scanner_of_ScanOK (file : File) (h : ScanOK file) :
    Scanner file = ((rawLines file.content).map dropCR, none) := by
  unfold Scanner
  rw [h.1]
  exact scanTokens_ok _ h.2

/-! ## ReadHostsFile: lemmas -/

theorem processLine_dropCR (hosts : Hosts) (l : GoString) :
    processLine hosts (dropCR l) = processLine hosts l := by
  unfold processLine
  rw [TrimSpace_dropCR]

theorem insertAlias_invalid (hosts : Hosts) (ip hostname : GoString) (h : ParseIP ip = []) :
    insertAlias hosts ip hostname = hosts := by
  simp [insertAlias, h, To4, To16]

theorem foldl_insertAlias_invalid (ip : GoString) (h : ParseIP ip = []) (names : List GoString)
    (hosts : Hosts) :
    names.foldl (fun t hostname => insertAlias t ip hostname) hosts = hosts := by
  induction names generalizing hosts with
  | nil => rfl
  | cons x t ih => simp [List.foldl, insertAlias_invalid _ _ _ h, ih]

theorem processLine_skipped (hosts : Hosts) (l : GoString) (h : skippedLine l = true) :
    processLine hosts l = hosts := by
  unfold skippedLine at h
  simp only [Bool.or_eq_true, decide_eq_true_eq] at h
  unfold processLine
  simp only []
  rcases h with ((h | h) | h) | h
  · simp [h]
  · simp [h]
  · simp [h]
  · split
    · rfl
    · split
      · rfl
      · exact foldl_insertAlias_invalid _ h _ _

theorem foldl_processLine_filter (ls : List GoString) (hosts : Hosts) :
    ((ls.filter (fun l => !skippedLine l)).map dropCR).foldl processLine hosts
      = (ls.map dropCR).foldl processLine hosts := by
  induction ls generalizing hosts with
  | nil => rfl
  | cons l t ih =>
    by_cases hs : skippedLine l = true
    · simp [List.filter, hs, processLine_dropCR, processLine_skipped _ _ hs, ih]
    · simp [List.filter, hs, ih]

theorem ReadHostsFile_of_ScanOK (fs : FileSystem) (filename : String) (file : File)
    (hopen : fs.Open filename = .ok file) (hscan : ScanOK file) :
    ReadHostsFile fs filename
      = .ok (((rawLines file.content).map dropCR).foldl processLine Hosts.empty) := by
  unfold ReadHostsFile
  rw [hopen]
  simp [Scanner_of_ScanOK file hscan]

theorem ScanOK_removeSkipped (file : File) (hscan : ScanOK file) :
    rawLines (removeSkipped file.content)
        = (rawLines file.content).filter (fun l => !skippedLine l)
      ∧ ScanOK { content := removeSkipped file.content, readErr := none } := by
  have hraw : rawLines (removeSkipped file.content)
      = (rawLines file.content).filter (fun l => !skippedLine l) := by
    unfold removeSkipped
    apply rawLines_joinLines
    intro l hl
    exact rawLinesFrom_no_newline file.content [] (by simp) l (List.mem_filter.1 hl).1
  refine ⟨hraw, rfl, ?_⟩
  intro l hl
  simp only [] at hl
  rw [hraw] at hl
  exact hscan.2 l (List.mem_filter.1 hl).1

/-! ## net.ParseIP: lemmas -/

theorem parseIPv4FieldsLoop_length (s : GoString) (val digLen : Nat) (fields : List Nat)
    (atStart prevDot : Bool) (f : List Nat)
    (h : parseIPv4FieldsLoop val digLen fields atStart prevDot s = some f)
    (hlen : fields.length ≤ 3) : f.length = 4 := by
  induction s generalizing val digLen fields atStart prevDot with
  | nil =>
    unfold parseIPv4FieldsLoop at h
    split at h
    · simp at h
    · simp only [Option.some.injEq] at h
      rw [← h, List.length_append, List.length_singleton]
      omega
  | cons c rest ih =>
    unfold parseIPv4FieldsLoop at h
    split at h
    · split at h
      · simp at h
      · split at h
        · simp at h
        · exact ih _ _ _ _ _ h hlen
    · split at h
      · split at h
        · simp at h
        · split at h
          · simp at h
          · next h3 =>
            refine ih _ _ _ _ _ h ?_
            rw [List.length_append, List.length_singleton]
            omega
      · simp at h

theorem parseIPv6Loop_length (slots : Nat) (ip : List Nat) (ellipsis : Option Nat) (s : GoString)
    (ip2 : List Nat) (ellipsis2 : Option Nat) (rest : GoString)
    (h : parseIPv6Loop slots ip ellipsis s = some (ip2, ellipsis2, rest))
    (hlen : ip.length + 2 * slots = 16) (hell : ∀ e, ellipsis = some e → e ≤ ip.length) :
    ip2.length ≤ 16 ∧ ∀ e, ellipsis2 = some e → e ≤ ip2.length := by
  induction slots generalizing ip ellipsis s with
  | zero =>
    simp only [parseIPv6Loop, Option.some.injEq, Prod.mk.injEq] at h
    obtain ⟨h1, h2, _⟩ := h
    subst h1 h2
    exact ⟨by omega, hell⟩
  | succ n ih =>
    unfold parseIPv6Loop at h
    split at h
    · simp at h
    · next off acc rest1 hgroup =>
      split at h
      · simp at h
      · split at h
        · split at h
          · simp at h
          · split at h
            · simp at h
            · split at h
              · simp at h
              · next f hf =>
                simp only [Option.some.injEq, Prod.mk.injEq] at h
                obtain ⟨h1, h2, _⟩ := h
                subst h1 h2
                have h4 := parseIPv4FieldsLoop_length s 0 0 [] true false f hf (by simp)
                refine ⟨by rw [List.length_append]; omega, ?_⟩
                intro e he
                rw [List.length_append]
                have := hell e he
                omega
        · have hlen2 : (ip ++ [acc / 256 % 256, acc % 256]).length + 2 * n = 16 := by
            simp only [List.length_append, List.length_cons, List.length_nil]
            omega
          have hell2 : ∀ e, ellipsis = some e →
              e ≤ (ip ++ [acc / 256 % 256, acc % 256]).length := by
            intro e he
            have := hell e he
            simp only [List.length_append, List.length_cons, List.length_nil]
            omega
          simp only [] at h
          split at h
          · simp only [Option.some.injEq, Prod.mk.injEq] at h
            obtain ⟨h1, h2, _⟩ := h
            subst h1 h2
            exact ⟨by omega, hell2⟩
          · split at h
            · simp at h
            · split at h
              · simp at h
              · split at h
                · split at h
                  · simp at h
                  · split at h
                    · simp only [Option.some.injEq, Prod.mk.injEq] at h
                      obtain ⟨h1, h2, _⟩ := h
                      subst h1 h2
                      refine ⟨by omega, ?_⟩
                      intro e he
                      simp only [Option.some.injEq] at he
                      omega
                    · exact ih _ _ _ h hlen2 (by
                        intro e he
                        simp only [Option.some.injEq] at he
                        omega)
                · exact ih _ _ _ h hlen2 hell2

theorem parseIPv6Finish_length (z : AddrKind) (r : Option (List Nat × Option Nat × GoString))
    (addr : Addr) (h : parseIPv6Finish z r = some addr)
    (hinv : ∀ ip ellipsis rest, r = some (ip, ellipsis, rest) →
      ip.length ≤ 16 ∧ ∀ e, ellipsis = some e → e ≤ ip.length) :
    addr.as16.length = 16 := by
  unfold parseIPv6Finish at h
  split at h
  · simp at h
  · next ip ellipsis rest =>
    have hi := hinv ip ellipsis rest rfl
    split at h
    · simp at h
    · split at h
      · split at h
        · simp at h
        · next e =>
          simp only [Option.some.injEq] at h
          rw [← h]
          have he := hi.2 e rfl
          simp only [List.length_append, List.length_take, List.length_replicate,
            List.length_drop]
          omega
      · split at h
        · simp at h
        · simp only [Option.some.injEq] at h
          rw [← h]
          have := hi.1
          simp only []
          omega

theorem parseIPv6Text_length (z : AddrKind) (s : GoString) (addr : Addr)
    (h : parseIPv6Text z s = some addr) : addr.as16.length = 16 := by
  unfold parseIPv6Text at h
  split at h
  · split at h
    · simp only [Option.some.injEq] at h
      rw [← h]
      simp
    · refine parseIPv6Finish_length z _ addr h ?_
      intro ip ellipsis rest hr
      exact parseIPv6Loop_length 8 [] (some 0) _ ip ellipsis rest hr (by simp) (by
        intro e he
        simp only [Option.some.injEq] at he
        omega)
  · refine parseIPv6Finish_length z _ addr h ?_
    intro ip ellipsis rest hr
    exact parseIPv6Loop_length 8 [] none _ ip ellipsis rest hr (by simp) (by simp)

theorem parseIPv6_length (s : GoString) (addr : Addr) (h : parseIPv6 s = some addr) :
    addr.as16.length = 16 := by
  unfold parseIPv6 at h
  split at h
  · split at h
    · simp at h
    · exact parseIPv6Text_length _ _ addr h
  · exact parseIPv6Text_length _ _ addr h

theorem parseIPv4_length (s : GoString) (addr : Addr) (h : parseIPv4 s = some addr) :
    addr.as16.length = 16 ∧ To4 addr.as16 ≠ [] ∧ addr.z = AddrKind.z4 := by
  unfold parseIPv4 parseIPv4Fields at h
  cases hf : parseIPv4FieldsLoop 0 0 [] true false s with
  | none => simp [hf] at h
  | some f =>
    have h4 := parseIPv4FieldsLoop_length s 0 0 [] true false f hf (by simp)
    simp only [hf, Option.map_some', Option.some.injEq] at h
    rw [← h]
    match f, h4 with
    | [a, b, c, d], _ => simp [AddrFrom4, To4]

theorem ParseAddrFrom_length (s t : GoString) (addr : Addr) (h : ParseAddrFrom s t = some addr) :
    addr.as16.length = 16 := by
  induction t with
  | nil => simp [ParseAddrFrom] at h
  | cons c cs ih =>
    unfold ParseAddrFrom at h
    split at h
    · exact (parseIPv4_length s addr h).1
    · split at h
      · exact parseIPv6_length s addr h
      · split at h
        · simp at h
        · exact ih h

theorem ParseIP_length (s : GoString) (h : ParseIP s ≠ []) : (ParseIP s).length = 16 := by
  unfold ParseIP at h ⊢
  split
  · next hp => simp [hp] at h
  · next addr hp =>
    simp only [hp] at h
    split
    · exact ParseAddrFrom_length s s addr hp
    · next hz => simp [hz] at h

theorem To16_ParseIP (s : GoString) (h : ParseIP s ≠ []) : To16 (ParseIP s) ≠ [] := by
  have hl := ParseIP_length s h
  unfold To16
  simp [hl, h]

theorem parseIPv6Finish_z (z : AddrKind) (r : Option (List Nat × Option Nat × GoString))
    (addr : Addr) (h : parseIPv6Finish z r = some addr) : addr.z = z := by
  unfold parseIPv6Finish at h
  split at h
  · simp at h
  · split at h
    · simp at h
    · split at h
      · split at h
        · simp at h
        · simp only [Option.some.injEq] at h
          rw [← h]
      · split at h
        · simp at h
        · simp only [Option.some.injEq] at h
          rw [← h]

theorem parseIPv6Text_z (z : AddrKind) (s : GoString) (addr : Addr)
    (h : parseIPv6Text z s = some addr) : addr.z = z := by
  unfold parseIPv6Text at h
  split at h
  · split at h
    · simp only [Option.some.injEq] at h
      rw [← h]
    · exact parseIPv6Finish_z z _ addr h
  · exact parseIPv6Finish_z z _ addr h

theorem parseIPv6_z (s : GoString) (addr : Addr) (h : parseIPv6 s = some addr) :
    addr.z ≠ AddrKind.z4 := by
  unfold parseIPv6 at h
  split at h
  · split at h
    · simp at h
    · rw [parseIPv6Text_z _ _ addr h]
      simp
  · rw [parseIPv6Text_z _ _ addr h]
    simp

theorem ParseAddrFrom_cases (s t : GoString) (addr : Addr) (h : ParseAddrFrom s t = some addr) :
    parseIPv4 s = some addr ∨ parseIPv6 s = some addr := by
  induction t with
  | nil => simp [ParseAddrFrom] at h
  | cons c cs ih =>
    unfold ParseAddrFrom at h
    split at h
    · exact Or.inl h
    · split at h
      · exact Or.inr h
      · split at h
        · simp at h
        · exact ih h

theorem ParseAddr_Is4 (a : GoString) (addr : Addr) (h : ParseAddr a = some addr)
    (hz : addr.z = AddrKind.z4) : To4 addr.as16 ≠ [] := by
  rcases ParseAddrFrom_cases a a addr h with h4 | h6
  · exact (parseIPv4_length a addr h4).2.1
  · exact absurd hz (parseIPv6_z a addr h6)

theorem To4_eq_Is4In6 (addr : Addr) (hlen : addr.as16.length = 16)
    (hz : addr.z ≠ AddrKind.z4) : (To4 addr.as16 ≠ [] ↔ addr.Is4In6 = true) := by
  match addr, hlen with
  | ⟨[b0, b1, b2, b3, b4, b5, b6, b7, b8, b9, b10, b11, b12, b13, b14, b15], z⟩, _ =>
    simp only [] at hz
    simp [To4, Addr.Is4In6, hz]

/-- The address kinds `net.ParseIP` tells apart: `To4` is not nil exactly for a
dotted IPv4 literal and for an IPv4-mapped IPv6 literal; the result is not
nil exactly for an IPv4 or IPv6 literal. -/
theorem ParseIP_kinds (a : GoString) :
    (ParseIP a ≠ [] ↔ (isIPv4Literal a = true ∨ isIPv6Literal a = true))
    ∧ (To4 (ParseIP a) ≠ [] ↔ (isIPv4Literal a = true ∨ isIPv4MappedLiteral a = true)) := by
  unfold ParseIP isIPv4Literal isIPv6Literal isIPv4MappedLiteral
  cases hp : ParseAddr a with
  | none => simp [To4]
  | some addr =>
    have hlen : addr.as16.length = 16 := ParseAddrFrom_length a a addr hp
    have hne : addr.as16 ≠ [] := by
      intro h0
      rw [h0] at hlen
      simp at hlen
    simp only [Addr.Is4, decide_eq_true_eq, Bool.and_eq_true]
    by_cases h4 : addr.z = AddrKind.z4
    · have := ParseAddr_Is4 a addr hp h4
      simp [h4, hne, this]
    · by_cases h6 : addr.z = AddrKind.z6noz
      · have := To4_eq_Is4In6 addr hlen h4
        simp [h4, h6, hne, this]
      · simp [h4, h6, To4]

/-! ## ReadHostsFile: what a line writes -/

theorem FieldsFrom_head (s cur : GoString) (hcur : cur ≠ []) :
    ∃ f fs, FieldsFrom cur s = (cur ++ f) :: fs := by
  induction s generalizing cur with
  | nil => exact ⟨[], [], by simp [FieldsFrom, hcur]⟩
  | cons c cs ih =>
    unfold FieldsFrom
    by_cases hc : IsSpace c = true
    · exact ⟨[], FieldsFrom [] cs, by simp [hc, hcur]⟩
    · obtain ⟨f, fs, hf⟩ := ih (cur ++ [c]) (by simp)
      exact ⟨c :: f, fs, by simp [hc, hf]⟩

theorem ParseIP_hash (f : GoString) : ParseIP ('#' :: f) = [] := by
  have h4 : parseIPv4 ('#' :: f) = none := by
    simp [parseIPv4, parseIPv4Fields, parseIPv4FieldsLoop]
  have htext : ∀ z t, parseIPv6Text z ('#' :: t) = none := by
    intro z t
    have hg : parseHexGroup 0 0 ('#' :: t) = some (0, 0, '#' :: t) := by
      unfold parseHexGroup
      have : hexVal '#' = none := by decide
      simp [this]
    have htake : ¬ (List.take 2 ('#' :: t) = [':', ':']) := by
      cases t <;> simp
    unfold parseIPv6Text
    rw [if_neg htake]
    simp [parseIPv6Loop, hg, parseIPv6Finish]
  have h6 : parseIPv6 ('#' :: f) = none := by
    unfold parseIPv6
    split
    · split
      · rfl
      · have : List.takeWhile (fun c => decide (c ≠ '%')) ('#' :: f)
            = '#' :: List.takeWhile (fun c => decide (c ≠ '%')) f := by
          simp [List.takeWhile]
        rw [this]
        exact htext _ _
    · exact htext _ _
  unfold ParseIP
  cases hp : ParseAddr ('#' :: f) with
  | none => rfl
  | some addr =>
    rcases ParseAddrFrom_cases _ _ addr hp with h | h
    · rw [h4] at h; simp at h
    · rw [h6] at h; simp at h

theorem addressOf_comment (l : GoString) (h : HasPrefix (TrimSpace l) ['#'] = true) :
    ParseIP (addressOf l) = [] := by
  unfold addressOf
  cases ht : TrimSpace l with
  | nil => simp [ht, HasPrefix] at h
  | cons c rest =>
    have hc : c = '#' := by
      have : '#' = c := by simpa [ht, HasPrefix, List.isPrefixOf] using h
      exact this.symm
    subst hc
    have hns : IsSpace '#' = false := by decide
    obtain ⟨f, fs, hf⟩ := FieldsFrom_head rest ['#'] (by simp)
    have : Fields ('#' :: rest) = ('#' :: f) :: fs := by
      simp [Fields, FieldsFrom, hns, hf]
    rw [this]
    exact ParseIP_hash f

theorem Hosts.set_apply (hosts : Hosts) (key : GoString) (rec : DNSRecord) (k : GoString) :
    hosts.set key rec k = if k = key then some rec else hosts k := rfl

theorem insertAlias_apply (hosts : Hosts) (ip hostname k : GoString) :
    insertAlias hosts ip hostname k
      = if ParseIP ip ≠ [] ∧ (k = hostname ∨ k = hostname ++ ['.']) then some (recordOf ip)
        else hosts k := by
  by_cases hv : ParseIP ip = []
  · simp [insertAlias_invalid _ _ _ hv, hv]
  · have h16 := To16_ParseIP ip hv
    unfold insertAlias recordOf
    by_cases h4 : To4 (ParseIP ip) = []
    · simp only [h4, ne_eq, not_true_eq_false, if_false, h16, not_false_eq_true, if_true, hv,
        true_and, Hosts.set_apply]
      by_cases h1 : k = hostname
      · simp [h1]
      · simp [h1]
    · simp only [h4, ne_eq, not_false_eq_true, if_true, hv, true_and, Hosts.set_apply]
      by_cases h1 : k = hostname
      · simp [h1]
      · simp [h1]

theorem foldl_insertAlias_apply (ip : GoString) (names : List GoString) (hosts : Hosts)
    (k : GoString) :
    names.foldl (fun t hostname => insertAlias t ip hostname) hosts k
      = if ParseIP ip ≠ [] ∧ writesKey names k then some (recordOf ip) else hosts k := by
  induction names generalizing hosts with
  | nil => simp [writesKey]
  | cons x t ih =>
    rw [List.foldl_cons, ih, insertAlias_apply]
    by_cases hv : ParseIP ip = []
    · simp [hv]
    · by_cases ht : writesKey t k
      · have : writesKey (x :: t) k := by
          obtain ⟨h, hm, hk⟩ := ht
          exact ⟨h, List.mem_cons_of_mem _ hm, hk⟩
        simp [hv, ht, this]
      · by_cases hx : k = x ∨ k = x ++ ['.']
        · have : writesKey (x :: t) k := ⟨x, by simp, hx⟩
          simp [hv, ht, this, hx]
        · have : ¬ writesKey (x :: t) k := by
            rintro ⟨h, hm, hk⟩
            rcases List.mem_cons.1 hm with rfl | hm
            · exact hx hk
            · exact ht ⟨h, hm, hk⟩
          simp [hv, ht, this, hx]

theorem processLine_apply (hosts : Hosts) (l k : GoString) :
    processLine hosts l k
      = if ParseIP (addressOf l) ≠ [] ∧ writesKey (aliasesOf l) k
        then some (recordOf (addressOf l)) else hosts k := by
  by_cases hs : skippedLine l = true
  · rw [processLine_skipped hosts l hs]
    have hinv : ParseIP (addressOf l) = [] ∨ aliasesOf l = [] := by
      unfold skippedLine at hs
      simp only [Bool.or_eq_true, decide_eq_true_eq] at hs
      rcases hs with ((h | h) | h) | h
      · left
        unfold addressOf
        rw [h]
        decide
      · exact Or.inl (addressOf_comment l h)
      · right
        unfold aliasesOf
        match hf : Fields (TrimSpace l), h with
        | [], _ => rfl
        | [_], _ => rfl
        | _ :: _ :: _, h => simp only [List.length_cons] at h; omega
      · exact Or.inl h
    rcases hinv with h | h
    · simp [h]
    · simp [h, writesKey]
  · unfold skippedLine at hs
    simp only [Bool.or_eq_true, decide_eq_true_eq, not_or] at hs
    obtain ⟨⟨⟨h1, h2⟩, h3⟩, h4⟩ := hs
    have : processLine hosts l
        = (aliasesOf l).foldl (fun t hostname => insertAlias t (addressOf l) hostname) hosts := by
      unfold processLine aliasesOf addressOf
      simp [h1, h2, h3]
    rw [this, foldl_insertAlias_apply]

theorem foldl_processLine_untouched (ls : List GoString) (hosts : Hosts) (k : GoString)
    (h : ∀ l ∈ ls, ¬ (ParseIP (addressOf l) ≠ [] ∧ writesKey (aliasesOf l) k)) :
    ls.foldl processLine hosts k = hosts k := by
  induction ls generalizing hosts with
  | nil => rfl
  | cons l t ih =>
    rw [List.foldl_cons, ih _ (fun x hx => h x (by simp [hx])), processLine_apply,
      if_neg (h l (by simp))]

theorem foldl_processLine_last (pre post : List GoString) (l k : GoString) (hosts : Hosts)
    (hl : ParseIP (addressOf l) ≠ [] ∧ writesKey (aliasesOf l) k)
    (hpost : ∀ x ∈ post, ¬ (ParseIP (addressOf x) ≠ [] ∧ writesKey (aliasesOf x) k)) :
    (pre ++ l :: post).foldl processLine hosts k = some (recordOf (addressOf l)) := by
  rw [List.foldl_append, List.foldl_cons, foldl_processLine_untouched post _ k hpost,
    processLine_apply, if_pos hl]

theorem addressOf_dropCR (l : GoString) : addressOf (dropCR l) = addressOf l := by
  unfold addressOf
  rw [TrimSpace_dropCR]

theorem aliasesOf_dropCR (l : GoString) : aliasesOf (dropCR l) = aliasesOf l := by
  unfold aliasesOf
  rw [TrimSpace_dropCR]

theorem skippedLine_iff (l : GoString) :
    skippedLine l = true ↔ (ParseIP (addressOf l) = [] ∨ aliasesOf l = []) := by
  constructor
  · intro hs
    unfold skippedLine at hs
    simp only [Bool.or_eq_true, decide_eq_true_eq] at hs
    rcases hs with ((h | h) | h) | h
    · left
      unfold addressOf
      rw [h]
      decide
    · exact Or.inl (addressOf_comment l h)
    · right
      unfold aliasesOf
      match hf : Fields (TrimSpace l), h with
      | [], _ => rfl
      | [_], _ => rfl
      | _ :: _ :: _, h => simp only [List.length_cons] at h; omega
    · exact Or.inl h
  · intro h
    unfold skippedLine
    simp only [Bool.or_eq_true, decide_eq_true_eq]
    rcases h with h | h
    · exact Or.inr h
    · left; right
      unfold aliasesOf at h
      match hf : Fields (TrimSpace l), h with
      | [], _ => simp
      | [_], _ => simp
      | _ :: _ :: _, h => simp [hf] at h

theorem recordOf_eq (ip : GoString) :
    recordOf ip
      = { IP := ip, IPType := if To4 (ParseIP ip) ≠ [] then DNSTypeA else DNSTypeAAAA } := by
  unfold recordOf NewDNSRecord
  split <;> rfl

theorem rawLinesFrom_single (l cur : GoString) (hl : '\n' ∉ l) :
    rawLinesFrom cur l = if cur ++ l = [] then [] else [cur ++ l] := by
  induction l generalizing cur with
  | nil => simp [rawLinesFrom]
  | cons x t ih =>
    have hx : x ≠ '\n' := fun h => hl (by simp [h])
    have ht : '\n' ∉ t := fun h => hl (by simp [h])
    simp [rawLinesFrom, hx, ih _ ht]

theorem byteLen_replicate (n : Nat) (c : Char) :
    byteLen (List.replicate n c) = n * c.utf8Size := by
  unfold byteLen
  rw [List.map_replicate, List.sum_replicate, smul_eq_mul]

theorem ReadHostsFile_long_line (n : Nat) (hn : MaxScanTokenSize ≤ n) (mtime : Time)
    (filename : String) :
    ReadHostsFile (fileSystemOf (List.replicate n '#') mtime) filename
      = .error GoError.ErrTooLong := by
  have hpos : 0 < n := Nat.lt_of_lt_of_le (by decide) hn
  have hnl : '\n' ∉ List.replicate n '#' := by
    intro h
    have := List.eq_of_mem_replicate h
    exact absurd this (by decide)
  have hne : List.replicate n '#' ≠ [] := by
    intro h
    have := congrArg List.length h
    simp at this
    omega
  have hraw : rawLinesFrom [] (List.replicate n '#') = [List.replicate n '#'] := by
    rw [rawLinesFrom_single _ _ hnl]
    simp [hne]
  have hlen : MaxScanTokenSize ≤ byteLen (List.replicate n '#') := by
    rw [byteLen_replicate]
    have : Char.utf8Size '#' = 1 := by decide
    rw [this]
    omega
  unfold ReadHostsFile fileSystemOf Scanner
  simp only [hraw, scanTokens, hlen, if_true]

/-! ## ReadHostsFile: theorems -/

theorem not_eq_append_dot_host1 (x : GoString) : "host1".toList ≠ x ++ ['.'] := by
  intro h
  have h2 : (x ++ ['.']).getLast? = some '.' := by simp
  rw [← h] at h2
  revert h2
  decide

/-- C1 (counterexample). With the lines `1.1.1.1 a.` and `2.2.2.2 a`, the
name `a.` is an alias of the first line only, yet the key `a.` holds the
second line's address and the keys `a.` and `a..` hold different records. -/
theorem ReadHostsFile_dotted_alias_overwritten :
    ∃ hosts, ReadHostsFile (fileSystemOf "1.1.1.1 a.\n2.2.2.2 a\n".toList ⟨0, 0⟩) "/etc/hostdns"
        = .ok hosts
      ∧ rawLines "1.1.1.1 a.\n2.2.2.2 a\n".toList = ["1.1.1.1 a.".toList, "2.2.2.2 a".toList]
      ∧ listsAlias "1.1.1.1 a.".toList "a.".toList
      ∧ ¬ listsAlias "2.2.2.2 a".toList "a.".toList
      ∧ hosts "a.".toList = some { IP := "2.2.2.2".toList, IPType := DNSTypeA }
      ∧ hosts "a..".toList = some { IP := "1.1.1.1".toList, IPType := DNSTypeA } := by
  refine ⟨_, rfl, ?_, ?_, ?_, ?_, ?_⟩ <;> decide

/-- C1 (amended). For a file that is read to the end, let `l` be the last
line on which `h` is an alias after a valid IPv4/IPv6 literal. If no later
line with a valid address lists `h` followed by a dot, or `h` without its
final dot, then the table holds both keys `h` and `h + "."`, and both map to
the record whose IP is the address text of `l` and whose IPType is A when
`net.ParseIP(address).To4()` is not nil and AAAA otherwise. -/
theorem ReadHostsFile_last_line_wins (fs : FileSystem) (filename : String) (file : File)
    (pre post : List GoString) (l h : GoString)
    (hopen : fs.Open filename = .ok file) (hscan : ScanOK file)
    (hlines : rawLines file.content = pre ++ l :: post)
    (hl : listsAlias l h)
    (hlast : ∀ x ∈ post, ¬ listsAlias x h)
    (hdot : ∀ x ∈ post, ¬ listsAlias x (h ++ ['.']))
    (hbare : ∀ x ∈ post, ∀ b, b ++ ['.'] = h → ¬ listsAlias x b) :
    ∃ hosts, ReadHostsFile fs filename = .ok hosts
      ∧ hosts h = some { IP := addressOf l,
                         IPType := if To4 (ParseIP (addressOf l)) ≠ [] then DNSTypeA
                                   else DNSTypeAAAA }
      ∧ hosts (h ++ ['.']) = hosts h := by
  refine ⟨_, ReadHostsFile_of_ScanOK fs filename file hopen hscan, ?_⟩
  rw [hlines, List.map_append, List.map_cons]
  have key : ∀ k, writesKey (aliasesOf l) k →
      (∀ x ∈ post, ¬ (ParseIP (addressOf x) ≠ [] ∧ writesKey (aliasesOf x) k)) →
      (List.map dropCR pre ++ dropCR l :: List.map dropCR post).foldl processLine Hosts.empty k
        = some (recordOf (addressOf l)) := by
    intro k hk hpost
    rw [← addressOf_dropCR l]
    apply foldl_processLine_last
    · rw [addressOf_dropCR, aliasesOf_dropCR]
      exact ⟨hl.1, hk⟩
    · intro x hx
      obtain ⟨y, hy, rfl⟩ := List.mem_map.1 hx
      rw [addressOf_dropCR, aliasesOf_dropCR]
      exact hpost y hy
  have h1 := key h ⟨h, hl.2, Or.inl rfl⟩ (by
    rintro x hx ⟨hv, a, ha, hk | hk⟩
    · exact hlast x hx ⟨hv, hk ▸ ha⟩
    · exact hbare x hx a hk.symm ⟨hv, ha⟩)
  have h2 := key (h ++ ['.']) ⟨h, hl.2, Or.inr rfl⟩ (by
    rintro x hx ⟨hv, a, ha, hk | hk⟩
    · exact hdot x hx ⟨hv, hk ▸ ha⟩
    · have : h = a := List.append_cancel_right hk
      exact hlast x hx ⟨hv, this ▸ ha⟩)
  rw [h1, h2, recordOf_eq]
  exact ⟨rfl, rfl⟩

/-- Witness of C1 (amended): in `10.0.0.1 example.com` / `::1 example.com www`
/ `bad example.com` the last valid line listing `example.com` is the second. -/
theorem ReadHostsFile_last_line_wins_witness :
    ∃ hosts, ReadHostsFile
        (fileSystemOf "10.0.0.1 example.com\r\n::1 example.com www\nbad example.com".toList ⟨0, 0⟩)
        "/etc/hostdns" = .ok hosts
      ∧ hosts "example.com".toList = some { IP := "::1".toList, IPType := DNSTypeAAAA }
      ∧ hosts "example.com.".toList = hosts "example.com".toList :=
  ReadHostsFile_last_line_wins
    (fileSystemOf "10.0.0.1 example.com\r\n::1 example.com www\nbad example.com".toList ⟨0, 0⟩)
    "/etc/hostdns" ⟨"10.0.0.1 example.com\r\n::1 example.com www\nbad example.com".toList, none⟩
    ["10.0.0.1 example.com\r".toList] ["bad example.com".toList]
    "::1 example.com www".toList "example.com".toList
    rfl (by decide) (by decide) (by decide) (by decide) (by decide)
    (by
      intro x hx b hb
      have hx1 : x = "bad example.com".toList := by simpa using hx
      subst hx1
      intro hbad
      exact absurd hbad.1 (by decide))

/-- C2 (counterexample). A file that opens and reads without I/O error but
holds one comment line of 65536 bytes makes `ReadHostsFile` return the
scanner's error `ErrTooLong` and no table. -/
theorem ReadHostsFile_long_comment_fails :
    ReadHostsFile (fileSystemOf (List.replicate 65536 '#') ⟨0, 0⟩) "/etc/hostdns"
      = .error GoError.ErrTooLong :=
  ReadHostsFile_long_line 65536 (by decide) ⟨0, 0⟩ "/etc/hostdns"

/-- C2 (amended). For every hosts file that opens, reads without I/O error
and has no line of 65536 bytes or more, `ReadHostsFile` returns no error and
its table equals the table returned for the same content with every skipped
line removed (blank after trimming, starting with `#`, fewer than 2 fields,
or first field not a valid IPv4/IPv6 literal). The line `not-an-ip host1` is
skipped, and when every line listing `host1` or `host1.` as an alias is a
skipped one, the table has no key `host1` and no key `host1.`. -/
theorem ReadHostsFile_skips_lines (fs : FileSystem) (filename : String) (file : File)
    (mtime : Time) (hopen : fs.Open filename = .ok file) (hscan : ScanOK file) :
    ∃ hosts, ReadHostsFile fs filename = .ok hosts
      ∧ ReadHostsFile (fileSystemOf (removeSkipped file.content) mtime) filename = .ok hosts
      ∧ skippedLine "not-an-ip host1".toList = true
      ∧ ((∀ l ∈ rawLines file.content, skippedLine l = true
            ∨ ("host1".toList ∉ aliasesOf l ∧ "host1.".toList ∉ aliasesOf l)) →
          hosts "host1".toList = none ∧ hosts "host1.".toList = none) := by
  refine ⟨_, ReadHostsFile_of_ScanOK fs filename file hopen hscan, ?_, by decide, ?_⟩
  · have hrm := ScanOK_removeSkipped file hscan
    rw [ReadHostsFile_of_ScanOK (fileSystemOf (removeSkipped file.content) mtime) filename
      ⟨removeSkipped file.content, none⟩ rfl hrm.2]
    simp only [hrm.1, foldl_processLine_filter]
  · intro hnone
    have untouched : ∀ k : GoString,
        (∀ l ∈ rawLines file.content, skippedLine l = true ∨ ¬ writesKey (aliasesOf l) k) →
        ((rawLines file.content).map dropCR).foldl processLine Hosts.empty k = none := by
      intro k hk
      rw [foldl_processLine_untouched]
      · rfl
      · rintro x hx ⟨hv, hw⟩
        obtain ⟨y, hy, rfl⟩ := List.mem_map.1 hx
        rw [addressOf_dropCR] at hv
        rw [aliasesOf_dropCR] at hw
        rcases hk y hy with hs | hs
        · rcases (skippedLine_iff y).1 hs with h0 | h0
          · exact hv h0
          · rw [h0] at hw
            obtain ⟨a, ha, _⟩ := hw
            simp at ha
        · exact hs hw
    constructor
    · apply untouched
      intro l hl
      rcases hnone l hl with hs | ⟨h1, _⟩
      · exact Or.inl hs
      · right
        rintro ⟨a, ha, hk | hk⟩
        · exact h1 (hk ▸ ha)
        · exact not_eq_append_dot_host1 a hk
    · apply untouched
      intro l hl
      rcases hnone l hl with hs | ⟨h1, h2⟩
      · exact Or.inl hs
      · right
        rintro ⟨a, ha, hk | hk⟩
        · exact h2 (hk ▸ ha)
        · have : "host1".toList = a :=
            List.append_cancel_right (show "host1".toList ++ ['.'] = a ++ ['.'] from hk)
          exact h1 (this ▸ ha)

/-- Witness of C2 (amended): a file with a comment, a blank line, a one-field
line and the line `not-an-ip host1` among two valid lines. -/
theorem ReadHostsFile_skips_lines_witness :
    ∃ hosts, ReadHostsFile
        (fileSystemOf
          "# hosts\n10.0.0.1 example.com www\r\n\nnot-an-ip host1\nlonely\n::1 localhost6".toList
          ⟨0, 0⟩) "/etc/hostdns" = .ok hosts
      ∧ ReadHostsFile
          (fileSystemOf "10.0.0.1 example.com www\r\n::1 localhost6\n".toList ⟨7, 0⟩)
          "/etc/hostdns" = .ok hosts
      ∧ skippedLine "not-an-ip host1".toList = true
      ∧ ((∀ l ∈ rawLines
            "# hosts\n10.0.0.1 example.com www\r\n\nnot-an-ip host1\nlonely\n::1 localhost6".toList,
            skippedLine l = true
              ∨ ("host1".toList ∉ aliasesOf l ∧ "host1.".toList ∉ aliasesOf l)) →
          hosts "host1".toList = none ∧ hosts "host1.".toList = none) :=
  ReadHostsFile_skips_lines
    (fileSystemOf
      "# hosts\n10.0.0.1 example.com www\r\n\nnot-an-ip host1\nlonely\n::1 localhost6".toList
      ⟨0, 0⟩) "/etc/hostdns"
    ⟨"# hosts\n10.0.0.1 example.com www\r\n\nnot-an-ip host1\nlonely\n::1 localhost6".toList, none⟩
    ⟨7, 0⟩ rfl (by decide)

/-- C3 (counterexample). The line `::ffff:10.0.0.1 mapped` has an address that
is not a dotted IPv4 literal but a valid IPv6 literal, and `ReadHostsFile`
stores it with kind A. -/
theorem ReadHostsFile_mapped_literal_kind_A :
    ∃ hosts, ReadHostsFile (fileSystemOf "::ffff:10.0.0.1 mapped".toList ⟨0, 0⟩) "/etc/hostdns"
        = .ok hosts
      ∧ isIPv4Literal "::ffff:10.0.0.1".toList = false
      ∧ isIPv6Literal "::ffff:10.0.0.1".toList = true
      ∧ hosts "mapped".toList = some { IP := "::ffff:10.0.0.1".toList, IPType := DNSTypeA } := by
  refine ⟨_, rfl, ?_, ?_, ?_⟩ <;> decide

/-- C3 (amended). In a file that is read to the end, let a line have the
fields `a`, `h`, `rest...`. If `a` is a dotted IPv4 literal or an IPv4-mapped
IPv6 literal (`::ffff:a.b.c.d`), the line stores every alias, bare and dotted,
with address `a` and kind A; if `a` is any other valid IPv6 literal, with
address `a` and kind AAAA (the record is in the table under every such key
that no later line with a valid address writes again); otherwise the line
inserts no record: the table is the one of the file without that line. -/
theorem ReadHostsFile_classifies (fs : FileSystem) (filename : String) (file : File)
    (mtime : Time) (pre post : List GoString) (l a h : GoString) (rest : List GoString)
    (hopen : fs.Open filename = .ok file) (hscan : ScanOK file)
    (hlines : rawLines file.content = pre ++ l :: post)
    (hfields : Fields (TrimSpace l) = a :: h :: rest) :
    ∃ hosts hostsWithout, ReadHostsFile fs filename = .ok hosts
      ∧ ReadHostsFile (fileSystemOf (joinLines (pre ++ post)) mtime) filename = .ok hostsWithout
      ∧ (if isIPv4Literal a = true ∨ isIPv4MappedLiteral a = true then
           ∀ x ∈ h :: rest, ∀ k, (k = x ∨ k = x ++ ['.']) →
             (∀ y ∈ post, ¬ (ParseIP (addressOf y) ≠ [] ∧ writesKey (aliasesOf y) k)) →
             hosts k = some { IP := a, IPType := DNSTypeA }
         else if isIPv6Literal a = true then
           ∀ x ∈ h :: rest, ∀ k, (k = x ∨ k = x ++ ['.']) →
             (∀ y ∈ post, ¬ (ParseIP (addressOf y) ≠ [] ∧ writesKey (aliasesOf y) k)) →
             hosts k = some { IP := a, IPType := DNSTypeAAAA }
         else hosts = hostsWithout) := by
  have hnl : ∀ x ∈ pre ++ post, '\n' ∉ x := by
    intro x hx
    refine rawLinesFrom_no_newline file.content [] (by simp) x ?_
    show x ∈ rawLines file.content
    rw [hlines]
    rcases List.mem_append.1 hx with h1 | h1
    · simp [h1]
    · simp [h1]
  have hraw : rawLines (joinLines (pre ++ post)) = pre ++ post := rawLines_joinLines _ hnl
  have hscanW : ScanOK ⟨joinLines (pre ++ post), none⟩ := by
    refine ⟨rfl, ?_⟩
    intro x hx
    simp only [] at hx
    rw [hraw] at hx
    apply hscan.2
    rw [hlines]
    rcases List.mem_append.1 hx with h1 | h1
    · simp [h1]
    · simp [h1]
  have haddr : addressOf (dropCR l) = a := by
    rw [addressOf_dropCR]
    simp [addressOf, hfields]
  have hali : aliasesOf (dropCR l) = h :: rest := by
    rw [aliasesOf_dropCR]
    simp [aliasesOf, hfields]
  have hkinds := ParseIP_kinds a
  refine ⟨_, _, ReadHostsFile_of_ScanOK fs filename file hopen hscan,
    ReadHostsFile_of_ScanOK (fileSystemOf (joinLines (pre ++ post)) mtime) filename
      ⟨joinLines (pre ++ post), none⟩ rfl hscanW, ?_⟩
  simp only [hraw, hlines, List.map_append, List.map_cons]
  have stored : ParseIP a ≠ [] → ∀ x ∈ h :: rest, ∀ k, (k = x ∨ k = x ++ ['.']) →
      (∀ y ∈ post, ¬ (ParseIP (addressOf y) ≠ [] ∧ writesKey (aliasesOf y) k)) →
      (List.map dropCR pre ++ dropCR l :: List.map dropCR post).foldl processLine Hosts.empty k
        = some (recordOf a) := by
    intro hv x hx k hk hpost
    rw [← haddr]
    apply foldl_processLine_last
    · rw [haddr, hali]
      exact ⟨hv, x, hx, hk⟩
    · intro y hy
      obtain ⟨z, hz, rfl⟩ := List.mem_map.1 hy
      rw [addressOf_dropCR, aliasesOf_dropCR]
      exact hpost z hz
  by_cases hA : isIPv4Literal a = true ∨ isIPv4MappedLiteral a = true
  · rw [if_pos hA]
    have h4 : To4 (ParseIP a) ≠ [] := hkinds.2.2 hA
    have hv : ParseIP a ≠ [] := by
      intro h0
      rw [h0] at h4
      exact h4 (by decide)
    intro x hx k hk hpost
    rw [stored hv x hx k hk hpost, recordOf_eq, if_pos h4]
  · rw [if_neg hA]
    have h4 : ¬ To4 (ParseIP a) ≠ [] := fun h => hA (hkinds.2.1 h)
    by_cases h6 : isIPv6Literal a = true
    · rw [if_pos h6]
      have hv : ParseIP a ≠ [] := hkinds.1.2 (Or.inr h6)
      intro x hx k hk hpost
      rw [stored hv x hx k hk hpost, recordOf_eq, if_neg h4]
    · rw [if_neg h6]
      have hv : ParseIP a = [] := by
        by_contra hne
        rcases hkinds.1.1 hne with h | h
        · exact hA (Or.inl h)
        · exact h6 h
      have hskip : processLine
          (List.foldl processLine Hosts.empty (List.map dropCR pre)) (dropCR l)
          = List.foldl processLine Hosts.empty (List.map dropCR pre) := by
        funext k
        rw [processLine_apply, haddr]
        simp [hv]
      rw [List.foldl_append, List.foldl_cons, hskip, List.foldl_append]

/-- Witness of C3 (amended): in the file `10.0.0.1 example.com` /
`::1 localhost6` / `10.0.0.2 other` the second line is stored with address
`::1` and kind AAAA. -/
theorem ReadHostsFile_classifies_witness :
    ∃ hosts hostsWithout, ReadHostsFile
        (fileSystemOf "10.0.0.1 example.com\n::1 localhost6\n10.0.0.2 other\n".toList ⟨0, 0⟩)
        "/etc/hostdns" = .ok hosts
      ∧ ReadHostsFile (fileSystemOf "10.0.0.1 example.com\n10.0.0.2 other\n".toList ⟨0, 0⟩)
        "/etc/hostdns" = .ok hostsWithout
      ∧ ∀ x ∈ ["localhost6".toList], ∀ k, (k = x ∨ k = x ++ ['.']) →
          (∀ y ∈ ["10.0.0.2 other".toList],
            ¬ (ParseIP (addressOf y) ≠ [] ∧ writesKey (aliasesOf y) k)) →
          hosts k = some { IP := "::1".toList, IPType := DNSTypeAAAA } :=
  ReadHostsFile_classifies
    (fileSystemOf "10.0.0.1 example.com\n::1 localhost6\n10.0.0.2 other\n".toList ⟨0, 0⟩)
    "/etc/hostdns"
    ⟨"10.0.0.1 example.com\n::1 localhost6\n10.0.0.2 other\n".toList, none⟩ ⟨0, 0⟩
    ["10.0.0.1 example.com".toList] ["10.0.0.2 other".toList]
    "::1 localhost6".toList "::1".toList "localhost6".toList []
    rfl (by decide) (by decide) (by decide)

end HostsDNS
